import Mathlib

/-!
Verification development for the batch SQL execution engine
(`dataset/dbengine.py` of the holoclean-baseline repository).

The embedding models:
  * the database driver as an oracle `DB` mapping a statement text and a
    timeout-guard flag to an outcome (rows or a driver error);
  * the per-worker runner functions `_execute_query` and
    `_execute_query_w_backup`, each returning its result (an `Except` value
    standing for return-or-raise) together with the trace of connection
    events it performed (connect, set statement timeout, execute, close);
  * the engine object `DBengine` with its `_apply_func` dispatcher,
    modelled by the caller-visible outcome of each path. The sequential
    path (pool size at most 1) is `list(map(func, collection))`:
    `gatherBatch` after the map delivers the full array or the first
    raised error in submission order, which is the order the sequential
    map executes. The parallel path (`multiprocessing.Pool.map`) is
    `poolMapE`: the tasks run in an arbitrary completion schedule
    `order`; the first error in completion order is recorded (as
    `MapResult._set` keeps the first exception received) and re-raised
    at the end, otherwise the `(index, result)` completion pairs are
    assembled into the output array in submission-index order. The two
    paths therefore agree on the result array and on whether the call
    fails, but may deliver different errors when several tasks fail.
-/

set_option autoImplicit false

namespace DBEngineSpec

/-- A result row: an ordered sequence of column values. -/
abbrev Row := List String

/-- Driver-level errors: `queryCanceled` models
`psycopg2.extensions.QueryCanceledError` (the server-side statement-timeout
cancellation signal); `other` models every other driver exception
(syntax errors, constraint violations, connectivity loss, ...). -/
inductive DBError where
  | queryCanceled
  | other (msg : String)
deriving DecidableEq

/-- Outcome of executing one statement on the database. -/
inductive Outcome where
  | ok (rows : List Row)
  | err (e : DBError)
deriving DecidableEq

/-- The database oracle: `run stmt guarded` is the outcome of executing the
statement text `stmt` on a connection whose statement-timeout guard is
`guarded` (the guard is active after `SET statement_timeout` was issued on
the connection, inactive on a fresh connection). -/
structure DB where
  run : String → Bool → Outcome

/-- Connection-lifecycle events performed by a worker task, in order. -/
inductive Event where
  | connect
  | close
  | setTimeout (t : Nat)
  | exec (q : String)
deriving DecidableEq

/-- Number of `close` events in a trace. -/
def closes : List Event → Nat
  | [] => 0
  | .close :: tr => closes tr + 1
  | _ :: tr => closes tr

/-- Number of `connect` events in a trace. -/
def connects : List Event → Nat
  | [] => 0
  | .connect :: tr => connects tr + 1
  | _ :: tr => connects tr

/-- Number of `setTimeout` events in a trace. -/
def setTimeouts : List Event → Nat
  | [] => 0
  | .setTimeout _ :: tr => setTimeouts tr + 1
  | _ :: tr => setTimeouts tr

/-- Python truthiness of the optional backup query string: `None` and the
empty string are falsy (`if not query_backup:` in the source). -/
def pyFalsy : Option String → Bool
  | none => true
  | some s => s == ""

/-- Embedding of the module-level worker function `_execute_query`:
connect, execute the statement with no timeout guard, fetch, close on
success; a driver error propagates (and the connection is not closed). -/
def _execute_query (db : DB) (conn_args : String) (args : Nat × String) :
    Except DBError (List Row) × List Event :=
  let query := args.2
  match db.run query false with
  | .ok rows => (.ok rows, [.connect, .exec query, .close])
  | .err e => (.error e, [.connect, .exec query])

/-- Embedding of the module-level worker function `_execute_query_w_backup`:
connect, issue `SET statement_timeout`, execute the primary statement under
the guard; on success return the rows (without closing); on a
`QueryCanceledError` either return `[]` (falsy backup, without closing) or
close, reconnect and run the backup unguarded; any other error propagates. -/
def _execute_query_w_backup (db : DB) (conn_args : String) (timeout : Nat)
    (args : Nat × (String × Option String)) :
    Except DBError (List Row) × List Event :=
  let query := args.2.1
  let query_backup := args.2.2
  match db.run query true with
  | .ok rows => (.ok rows, [.connect, .setTimeout timeout, .exec query])
  | .err .queryCanceled =>
    if pyFalsy query_backup then
      (.ok [], [.connect, .setTimeout timeout, .exec query])
    else
      let bq := query_backup.getD ""
      match db.run bq false with
      | .ok rows =>
        (.ok rows,
          [.connect, .setTimeout timeout, .exec query, .close, .connect, .exec bq, .close])
      | .err e =>
        (.error e,
          [.connect, .setTimeout timeout, .exec query, .close, .connect, .exec bq])
  | .err e => (.error e, [.connect, .setTimeout timeout, .exec query])

/-- Completion log of the parallel dispatch: the tasks are executed in the
completion schedule `order` (a list of task indices); each execution
records the pair `(index, result)`. Indices outside the task list record
nothing. -/
def taskPairs {α β : Type} (f : α → β) (tasks : List α) (order : List Nat) :
    List (Nat × β) :=
  order.filterMap fun i => (tasks.get? i).map fun t => (i, f t)

/-- First value recorded for index `i` in a completion log. -/
def lookupIdx {β : Type} (i : Nat) : List (Nat × β) → Option β
  | [] => none
  | (k, v) :: rest => if i = k then some v else lookupIdx i rest

/-- First task error in completion order: scanning the completion
schedule `order`, the first task whose execution raises contributes its
error. This models `MapResult._set`, which keeps the first worker
exception received. -/
def firstErr {α β E : Type} (f : α → Except E β) (tasks : List α) :
    List Nat → Option E
  | [] => none
  | i :: rest =>
    match tasks.get? i with
    | none => firstErr f tasks rest
    | some t =>
      match f t with
      | .error e => some e
      | .ok _ => firstErr f tasks rest

/-- Model of `multiprocessing.Pool.map`: run the tasks in completion
schedule `order`; if any task raised, re-raise the first exception in
completion order, otherwise assemble the recorded results in
submission-index order. -/
def poolMapE {α β E : Type} (f : α → Except E β) (tasks : List α)
    (order : List Nat) : Except E (List β) :=
  match firstErr f tasks order with
  | some e => .error e
  | none =>
    .ok ((List.range tasks.length).filterMap fun i =>
      (lookupIdx i (taskPairs f tasks order)).bind Except.toOption)

/-- The engine object: constructor arguments retained by `__init__` that
the batch paths use. -/
structure DBengine where
  timeout : Nat
  pool_size : Nat
  conn_args : String

/-- Embedding of `self._pool = Pool(pool_size) if pool_size > 1 else None`. -/
def DBengine.pool (e : DBengine) : Option Nat :=
  if e.pool_size > 1 then some e.pool_size else none

/-- Outcome of the sequential `list(map(func, collection))` given the list
of task outcomes in submission order: the map executes the tasks in
submission order, so the first raised exception in submission order
propagates; otherwise the full list is returned. -/
def gatherBatch : List (Except DBError (List Row)) → Except DBError (List (List Row))
  | [] => .ok []
  | r :: rs =>
    match r with
    | .error e => .error e
    | .ok rows =>
      match gatherBatch rs with
      | .error e => .error e
      | .ok vs => .ok (rows :: vs)

/-- Embedding of `_apply_func` by its caller-visible outcome: the
sequential `list(map(func, collection))` when no pool was created
(first error in submission order), otherwise
`self._pool.map(func, collection)` (first error in completion order,
results assembled by submission index). -/
def DBengine._apply_func {α : Type} (e : DBengine)
    (f : α → Except DBError (List Row)) (collection : List α)
    (order : List Nat) : Except DBError (List (List Row)) :=
  match e.pool with
  | none => gatherBatch (collection.map f)
  | some _ => poolMapE f collection order

/-- Embedding of `execute_queries`: enumerate the statements and dispatch
`_execute_query` over the pool. -/
def DBengine.execute_queries (e : DBengine) (db : DB) (queries : List String)
    (order : List Nat) : Except DBError (List (List Row)) :=
  e._apply_func (fun p => (_execute_query db e.conn_args p).1) queries.enum order

/-- Embedding of `execute_queries_w_backup`: enumerate the (query, backup)
pairs and dispatch `_execute_query_w_backup` with the engine's timeout
over the pool. -/
def DBengine.execute_queries_w_backup (e : DBengine) (db : DB)
    (queries : List (String × Option String)) (order : List Nat) :
    Except DBError (List (List Row)) :=
  e._apply_func
    (fun p => (_execute_query_w_backup db e.conn_args e.timeout p).1)
    queries.enum order

/-- A completion schedule covers a batch of `n` tasks when every task index
below `n` appears in it. -/
def covers (order : List Nat) (n : Nat) : Prop :=
  ∀ i, i < n → i ∈ order

instance (order : List Nat) (n : Nat) : Decidable (covers order n) :=
  Nat.decidableBallLT n fun i _ => i ∈ order

/-- Denotation of one plain task: result of `_execute_query` on a query
(the task index and connection string do not affect the result). -/
def queryRes (db : DB) (q : String) : Except DBError (List Row) :=
  (_execute_query db "" (0, q)).1

/-- Denotation of one with-backup task. -/
def wbackupRes (db : DB) (timeout : Nat) (qb : String × Option String) :
    Except DBError (List Row) :=
  (_execute_query_w_backup db "" timeout (0, qb)).1

/-- Rows delivered by a task that did not raise. -/
def okRows : Except DBError (List Row) → List Row
  | .ok v => v
  | .error _ => []

/- ### Concrete fixtures used by witnesses and counterexamples -/

/-- A concrete database oracle: the statement named slow is cancelled when
the timeout guard is active, bad raises a non-timeout driver error,
fbfail raises a non-timeout error, fbcancel is cancelled even unguarded,
and every other statement returns one row. -/
def dbFix : DB :=
  ⟨fun q g =>
    if q = "slow" then
      (if g then Outcome.err DBError.queryCanceled else Outcome.ok [["s1"]])
    else if q = "bad" then Outcome.err (DBError.other "boom")
    else if q = "fbfail" then Outcome.err (DBError.other "fbboom")
    else if q = "fbcancel" then Outcome.err DBError.queryCanceled
    else Outcome.ok [["r1"]]⟩

/-- A second oracle with two distinct failing statements, used to observe
which error a batch call delivers when more than one task fails. -/
def dbFix2 : DB :=
  ⟨fun q _ =>
    if q = "bad" then Outcome.err (DBError.other "boom")
    else if q = "bad2" then Outcome.err (DBError.other "boom2")
    else Outcome.ok [["r1"]]⟩

/-- Engine configured with the sequential path (pool size 1). -/
def engSeq : DBengine := ⟨50, 1, "conn"⟩

/-- Engine configured with the parallel path (pool size 20). -/
def engPar : DBengine := ⟨50, 20, "conn"⟩

/- ### Helper lemmas -/

theorem filterMap_fun_congr {α β : Type} (l : List α) (g h : α → Option β)
    (H : ∀ a, a ∈ l → g a = h a) : l.filterMap g = l.filterMap h := by
  induction l with
  | nil => rfl
  | cons a t ih =>
    rw [List.filterMap_cons, List.filterMap_cons, H a (List.mem_cons_self a t),
      ih fun x hx => H x (List.mem_cons_of_mem a hx)]

theorem range_filterMap_get {α β : Type} (l : List α) (f : α → β) :
    (List.range l.length).filterMap (fun i => (l.get? i).map f) = l.map f := by
  induction l with
  | nil => rfl
  | cons a t ih =>
    rw [List.length_cons, List.range_succ_eq_map, List.filterMap_cons]
    show f a :: List.filterMap _ ((List.range t.length).map Nat.succ) = f a :: t.map f
    rw [List.filterMap_map]
    exact congrArg (f a :: ·) ih

theorem lookupIdx_taskPairs_none {α β : Type} (f : α → β) (tasks : List α)
    (order : List Nat) (i : Nat) (h : tasks.get? i = none) :
    lookupIdx i (taskPairs f tasks order) = none := by
  induction order with
  | nil => rfl
  | cons j rest ih =>
    unfold taskPairs at ih ⊢
    rw [List.filterMap_cons]
    cases hj : tasks.get? j with
    | none => exact ih
    | some t =>
      show lookupIdx i ((j, f t) :: _) = none
      rw [lookupIdx]
      have hij : i ≠ j := by
        intro e
        rw [e, hj] at h
        cases h
      rw [if_neg hij]
      exact ih

theorem lookupIdx_taskPairs_some {α β : Type} (f : α → β) (tasks : List α)
    (order : List Nat) (i : Nat) (t : α) (hmem : i ∈ order)
    (hget : tasks.get? i = some t) :
    lookupIdx i (taskPairs f tasks order) = some (f t) := by
  induction order with
  | nil => cases hmem
  | cons j rest ih =>
    unfold taskPairs at ih ⊢
    rw [List.filterMap_cons]
    cases hj : tasks.get? j with
    | none =>
      have hij : i ≠ j := by
        intro e
        rw [e, hj] at hget
        cases hget
      exact ih (List.mem_of_ne_of_mem hij hmem)
    | some u =>
      show lookupIdx i ((j, f u) :: _) = some (f t)
      rw [lookupIdx]
      by_cases hij : i = j
      · subst hij
        rw [hget] at hj
        rw [if_pos rfl]
        cases hj
        rfl
      · rw [if_neg hij]
        exact ih (List.mem_of_ne_of_mem hij hmem)

theorem lookupIdx_taskPairs {α β : Type} (f : α → β) (tasks : List α)
    (order : List Nat) (hcov : covers order tasks.length) (i : Nat) :
    lookupIdx i (taskPairs f tasks order) = (tasks.get? i).map f := by
  cases hget : tasks.get? i with
  | none => rw [lookupIdx_taskPairs_none f tasks order i hget, Option.map_none']
  | some t =>
    have hi : i < tasks.length := by
      rcases List.get?_eq_some.mp hget with ⟨h, _⟩
      exact h
    rw [lookupIdx_taskPairs_some f tasks order i t (hcov i hi) hget, Option.map_some']

theorem gatherBatch_ok (rs : List (Except DBError (List Row)))
    (h : ∀ r, r ∈ rs → ∃ v, r = .ok v) :
    gatherBatch rs = .ok (rs.map okRows) := by
  induction rs with
  | nil => rfl
  | cons r rest ih =>
    obtain ⟨v, hv⟩ := h r (List.mem_cons_self r rest)
    subst hv
    have hrest := ih fun x hx => h x (List.mem_cons_of_mem _ hx)
    show (match gatherBatch rest with
      | Except.error e => Except.error e
      | Except.ok vs => Except.ok (v :: vs)) = _
    rw [hrest]
    rfl

theorem gatherBatch_error (rs : List (Except DBError (List Row))) (j : Nat)
    (e : DBError) (hj : rs.get? j = some (.error e))
    (hbefore : ∀ i, i < j → ∃ v, rs.get? i = some (.ok v)) :
    gatherBatch rs = .error e := by
  induction rs generalizing j with
  | nil => cases hj
  | cons r rest ih =>
    cases j with
    | zero =>
      have : r = .error e := by
        injection hj
      subst this
      rfl
    | succ j' =>
      obtain ⟨v, hv⟩ := hbefore 0 (Nat.succ_pos j')
      have hr : r = .ok v := by
        injection hv
      subst hr
      show (match gatherBatch rest with
        | .error e => Except.error e
        | .ok vs => .ok (v :: vs)) = Except.error e
      rw [ih j' hj fun i hi => hbefore (i + 1) (Nat.succ_lt_succ hi)]

theorem enum_map_snd_comp {α β : Type} (l : List α) (g : α → β) :
    l.enum.map (fun p => g p.2) = l.map g := by
  have h1 : l.enum.map (fun p => g p.2) = (l.enum.map Prod.snd).map g := by
    rw [List.map_map]
    exact rfl
  rw [h1, List.enum_map_snd]

theorem pyFalsy_some_false {s : String} (h : s ≠ "") : pyFalsy (some s) = false := by
  simp only [pyFalsy, beq_eq_false_iff_ne, ne_eq]
  exact h

theorem execute_query_of_ok (db : DB) (ca : String) (i : Nat) (q : String)
    (rows : List Row) (h : db.run q false = .ok rows) :
    _execute_query db ca (i, q) = (.ok rows, [.connect, .exec q, .close]) := by
  simp only [_execute_query, h]

theorem execute_query_of_err (db : DB) (ca : String) (i : Nat) (q : String)
    (e : DBError) (h : db.run q false = .err e) :
    _execute_query db ca (i, q) = (.error e, [.connect, .exec q]) := by
  simp only [_execute_query, h]

theorem wbackup_of_ok (db : DB) (ca : String) (T i : Nat) (q : String)
    (b : Option String) (rows : List Row) (h : db.run q true = .ok rows) :
    _execute_query_w_backup db ca T (i, (q, b)) =
      (.ok rows, [.connect, .setTimeout T, .exec q]) := by
  simp only [_execute_query_w_backup, h]

theorem wbackup_of_cancel_falsy (db : DB) (ca : String) (T i : Nat) (q : String)
    (b : Option String) (hcan : db.run q true = .err .queryCanceled)
    (hb : pyFalsy b = true) :
    _execute_query_w_backup db ca T (i, (q, b)) =
      (.ok [], [.connect, .setTimeout T, .exec q]) := by
  simp only [_execute_query_w_backup, hcan, hb, if_true]

theorem wbackup_of_cancel_fb_ok (db : DB) (ca : String) (T i : Nat) (q bq : String)
    (rows : List Row) (hcan : db.run q true = .err .queryCanceled)
    (hbq : bq ≠ "") (hfb : db.run bq false = .ok rows) :
    _execute_query_w_backup db ca T (i, (q, some bq)) =
      (.ok rows,
        [.connect, .setTimeout T, .exec q, .close, .connect, .exec bq, .close]) := by
  simp only [_execute_query_w_backup, hcan, pyFalsy_some_false hbq, Option.getD_some, hfb,
    Bool.false_eq_true, if_false]

theorem wbackup_of_cancel_fb_err (db : DB) (ca : String) (T i : Nat) (q bq : String)
    (e : DBError) (hcan : db.run q true = .err .queryCanceled)
    (hbq : bq ≠ "") (hfb : db.run bq false = .err e) :
    _execute_query_w_backup db ca T (i, (q, some bq)) =
      (.error e,
        [.connect, .setTimeout T, .exec q, .close, .connect, .exec bq]) := by
  simp only [_execute_query_w_backup, hcan, pyFalsy_some_false hbq, Option.getD_some, hfb,
    Bool.false_eq_true, if_false]

theorem wbackup_of_other (db : DB) (ca : String) (T i : Nat) (q : String)
    (b : Option String) (m : String) (h : db.run q true = .err (.other m)) :
    _execute_query_w_backup db ca T (i, (q, b)) =
      (.error (.other m), [.connect, .setTimeout T, .exec q]) := by
  simp only [_execute_query_w_backup, h]

theorem gatherBatch_cons_error (e : DBError) (rest : List (Except DBError (List Row))) :
    gatherBatch (Except.error e :: rest) = .error e := rfl

theorem gatherBatch_error_iff (rs : List (Except DBError (List Row))) :
    (∃ err, gatherBatch rs = .error err) ↔ ∃ r ∈ rs, ∃ er, r = .error er := by
  induction rs with
  | nil =>
    constructor
    · rintro ⟨err, herr⟩
      cases herr
    · rintro ⟨r, hr, _⟩
      cases hr
  | cons r rest ih =>
    cases r with
    | error e =>
      constructor
      · intro _
        exact ⟨.error e, List.mem_cons_self _ rest, e, rfl⟩
      · intro _
        exact ⟨e, rfl⟩
    | ok v =>
      constructor
      · rintro ⟨err, herr⟩
        cases hg : gatherBatch rest with
        | error e2 =>
          obtain ⟨r2, hr2, er2, hrr⟩ := ih.mp ⟨e2, hg⟩
          exact ⟨r2, List.mem_cons_of_mem _ hr2, er2, hrr⟩
        | ok vs =>
          rw [show gatherBatch (Except.ok v :: rest) = (match gatherBatch rest with
            | Except.error e => Except.error e
            | Except.ok vs => Except.ok (v :: vs)) from rfl, hg] at herr
          cases herr
      · rintro ⟨r2, hr2, er2, hrr⟩
        rcases List.mem_cons.mp hr2 with h | h
        · rw [h] at hrr
          cases hrr
        · obtain ⟨e2, hg⟩ := ih.mpr ⟨r2, h, er2, hrr⟩
          refine ⟨e2, ?_⟩
          show (match gatherBatch rest with
            | Except.error e => Except.error e
            | Except.ok vs => Except.ok (v :: vs)) = Except.error e2
          rw [hg]

theorem firstErr_none {α β E : Type} (f : α → Except E β) (tasks : List α)
    (order : List Nat) (h : ∀ t ∈ tasks, ∃ v, f t = .ok v) :
    firstErr f tasks order = none := by
  induction order with
  | nil => rfl
  | cons i rest ih =>
    cases hg : tasks.get? i with
    | none =>
      simp only [firstErr, hg]
      exact ih
    | some t =>
      obtain ⟨v, hv⟩ := h t (List.get?_mem hg)
      simp only [firstErr, hg, hv]
      exact ih

theorem firstErr_some_imp {α β E : Type} (f : α → Except E β) (tasks : List α)
    (order : List Nat) (e2 : E) (h : firstErr f tasks order = some e2) :
    ∃ t ∈ tasks, ∃ er, f t = .error er := by
  induction order with
  | nil => cases h
  | cons i rest ih =>
    cases hg : tasks.get? i with
    | none =>
      simp only [firstErr, hg] at h
      exact ih h
    | some t =>
      cases hf : f t with
      | error er => exact ⟨t, List.get?_mem hg, er, hf⟩
      | ok v =>
        simp only [firstErr, hg, hf] at h
        exact ih h

theorem firstErr_mem_error {α β E : Type} (f : α → Except E β) (tasks : List α)
    (order : List Nat) (j : Nat) (t : α) (err : E) (hmem : j ∈ order)
    (hget : tasks.get? j = some t) (herr : f t = .error err) :
    ∃ e2, firstErr f tasks order = some e2 := by
  induction order with
  | nil => cases hmem
  | cons i rest ih =>
    cases hg : tasks.get? i with
    | none =>
      have hij : j ≠ i := by
        intro h
        rw [h, hg] at hget
        cases hget
      simp only [firstErr, hg]
      exact ih (List.mem_of_ne_of_mem hij hmem)
    | some u =>
      cases hf : f u with
      | error e0 => exact ⟨e0, by simp only [firstErr, hg, hf]⟩
      | ok v =>
        have hij : j ≠ i := by
          intro h
          rw [h, hg] at hget
          injection hget with h2
          rw [h2] at hf
          rw [herr] at hf
          cases hf
        simp only [firstErr, hg, hf]
        exact ih (List.mem_of_ne_of_mem hij hmem)

theorem firstErr_unique {α β E : Type} (f : α → Except E β) (tasks : List α)
    (order : List Nat) (j : Nat) (t : α) (err : E) (hmem : j ∈ order)
    (hget : tasks.get? j = some t) (herr : f t = .error err)
    (hok : ∀ i, i ∈ order → i ≠ j → ∀ u, tasks.get? i = some u →
      ∃ v, f u = .ok v) :
    firstErr f tasks order = some err := by
  induction order with
  | nil => cases hmem
  | cons i rest ih =>
    cases hg : tasks.get? i with
    | none =>
      have hij : j ≠ i := by
        intro h
        rw [h, hg] at hget
        cases hget
      simp only [firstErr, hg]
      exact ih (List.mem_of_ne_of_mem hij hmem)
        fun i2 h2 hne u hu => hok i2 (List.mem_cons_of_mem _ h2) hne u hu
    | some u =>
      by_cases hij : i = j
      · have h3 : tasks.get? i = some t := by
          rw [hij]
          exact hget
        rw [hg] at h3
        injection h3 with h4
        subst h4
        simp only [firstErr, hg, herr]
      · obtain ⟨v, hv⟩ := hok i (List.mem_cons_self i rest) hij u hg
        simp only [firstErr, hg, hv]
        have hji : j ≠ i := fun h => hij h.symm
        exact ih (List.mem_of_ne_of_mem hji hmem)
          fun i2 h2 hne u2 hu2 => hok i2 (List.mem_cons_of_mem _ h2) hne u2 hu2

theorem poolMapE_all_ok {α : Type} (f : α → Except DBError (List Row))
    (tasks : List α) (order : List Nat) (hcov : covers order tasks.length)
    (h : ∀ t ∈ tasks, ∃ v, f t = .ok v) :
    poolMapE f tasks order = .ok (tasks.map fun t => okRows (f t)) := by
  unfold poolMapE
  rw [firstErr_none f tasks order h]
  have hcongr : ((List.range tasks.length).filterMap fun i =>
      (lookupIdx i (taskPairs f tasks order)).bind Except.toOption) =
      (List.range tasks.length).filterMap fun i =>
        (tasks.get? i).map fun t => okRows (f t) := by
    apply filterMap_fun_congr
    intro i _
    rw [lookupIdx_taskPairs f tasks order hcov i]
    cases hg : tasks.get? i with
    | none => rfl
    | some t =>
      obtain ⟨v, hv⟩ := h t (List.get?_mem hg)
      simp [hv, okRows, Except.toOption]
  rw [hcongr, range_filterMap_get]

theorem poolMapE_error_iff {α : Type} (f : α → Except DBError (List Row))
    (tasks : List α) (order : List Nat) (hcov : covers order tasks.length) :
    (∃ err, poolMapE f tasks order = .error err) ↔
      ∃ t ∈ tasks, ∃ er, f t = .error er := by
  constructor
  · rintro ⟨err, herr⟩
    unfold poolMapE at herr
    cases hfe : firstErr f tasks order with
    | none =>
      rw [hfe] at herr
      cases herr
    | some e2 => exact firstErr_some_imp f tasks order e2 hfe
  · rintro ⟨t, hmem, er, her⟩
    obtain ⟨⟨j, hj⟩, rfl⟩ := List.mem_iff_get.mp hmem
    obtain ⟨e2, he2⟩ := firstErr_mem_error f tasks order j _ er (hcov j hj)
      (List.get?_eq_get hj) her
    refine ⟨e2, ?_⟩
    unfold poolMapE
    rw [he2]

theorem poolMapE_unique_error {α : Type} (f : α → Except DBError (List Row))
    (tasks : List α) (order : List Nat) (j : Nat) (err : DBError)
    (hcov : covers order tasks.length) (hj : j < tasks.length)
    (herr : f (tasks.get ⟨j, hj⟩) = .error err)
    (hok : ∀ i (hi : i < tasks.length), i ≠ j →
      ∃ v, f (tasks.get ⟨i, hi⟩) = .ok v) :
    poolMapE f tasks order = .error err := by
  have hok2 : ∀ i, i ∈ order → i ≠ j → ∀ u, tasks.get? i = some u →
      ∃ v, f u = .ok v := by
    intro i _ hij u hu
    have hi : i < tasks.length := by
      rcases List.get?_eq_some.mp hu with ⟨hh, _⟩
      exact hh
    have hu2 : u = tasks.get ⟨i, hi⟩ := by
      rw [List.get?_eq_get hi] at hu
      injection hu with h2
      exact h2.symm
    rw [hu2]
    exact hok i hi hij
  have h1 := firstErr_unique f tasks order j (tasks.get ⟨j, hj⟩) err
    (hcov j hj) (List.get?_eq_get hj) herr hok2
  unfold poolMapE
  rw [h1]

theorem apply_func_all_ok {α : Type} (e : DBengine)
    (f : α → Except DBError (List Row)) (c : List α) (order : List Nat)
    (hcov : covers order c.length) (h : ∀ a ∈ c, ∃ v, f a = .ok v) :
    e._apply_func f c order = .ok (c.map fun a => okRows (f a)) := by
  unfold DBengine._apply_func
  cases e.pool with
  | none =>
    have hall : ∀ r ∈ c.map f, ∃ v, r = .ok v := by
      intro r hr
      obtain ⟨a, ha, rfl⟩ := List.mem_map.mp hr
      exact h a ha
    rw [gatherBatch_ok (c.map f) hall, List.map_map]
    rfl
  | some p => exact poolMapE_all_ok f c order hcov h

theorem apply_func_error_iff {α : Type} (e : DBengine)
    (f : α → Except DBError (List Row)) (c : List α) (order : List Nat)
    (hcov : covers order c.length) :
    (∃ err, e._apply_func f c order = .error err) ↔
      ∃ a ∈ c, ∃ er, f a = .error er := by
  unfold DBengine._apply_func
  cases e.pool with
  | none =>
    rw [gatherBatch_error_iff (c.map f)]
    constructor
    · rintro ⟨r, hr, er, hrr⟩
      obtain ⟨a, ha, hfa⟩ := List.mem_map.mp hr
      exact ⟨a, ha, er, hfa.trans hrr⟩
    · rintro ⟨a, ha, er, hfa⟩
      exact ⟨f a, List.mem_map_of_mem f ha, er, hfa⟩
  | some p => exact poolMapE_error_iff f c order hcov

theorem apply_func_unique_error {α : Type} (e : DBengine)
    (f : α → Except DBError (List Row)) (c : List α) (order : List Nat)
    (j : Nat) (err : DBError) (hcov : covers order c.length)
    (hj : j < c.length) (herr : f (c.get ⟨j, hj⟩) = .error err)
    (hok : ∀ i (hi : i < c.length), i ≠ j → ∃ v, f (c.get ⟨i, hi⟩) = .ok v) :
    e._apply_func f c order = .error err := by
  unfold DBengine._apply_func
  cases e.pool with
  | none =>
    apply gatherBatch_error (c.map f) j err
    · rw [List.get?_map, List.get?_eq_get hj, Option.map_some', herr]
    · intro i hi
      have hij : i ≠ j := Nat.ne_of_lt hi
      have hi2 : i < c.length := Nat.lt_trans hi hj
      obtain ⟨v, hv⟩ := hok i hi2 hij
      exact ⟨v, by rw [List.get?_map, List.get?_eq_get hi2, Option.map_some', hv]⟩
  | some p => exact poolMapE_unique_error f c order j err hcov hj herr hok

theorem enum_snd_mem {α : Type} (l : List α) (p : Nat × α) (hp : p ∈ l.enum) :
    p.2 ∈ l := by
  have h2 : p.2 ∈ l.enum.map Prod.snd := List.mem_map_of_mem Prod.snd hp
  rwa [List.enum_map_snd] at h2

theorem enum_exists_snd {α : Type} (l : List α) (P : α → Prop) :
    (∃ p ∈ l.enum, P p.2) ↔ ∃ a ∈ l, P a := by
  constructor
  · rintro ⟨p, hp, hP⟩
    exact ⟨p.2, enum_snd_mem l p hp, hP⟩
  · rintro ⟨a, ha, hP⟩
    rw [← List.enum_map_snd l] at ha
    obtain ⟨p, hp, hpe⟩ := List.mem_map.mp ha
    refine ⟨p, hp, ?_⟩
    show P p.2
    rw [hpe]
    exact hP

theorem enum_get_eq {α : Type} (l : List α) (j : Nat) (hj : j < l.length)
    (hj2 : j < l.enum.length) :
    l.enum.get ⟨j, hj2⟩ = (j, l.get ⟨j, hj⟩) := by
  have h1 : l.enum.get? j = (l.get? j).map fun a => (j, a) := List.get?_enum l j
  rw [List.get?_eq_get hj2, List.get?_eq_get hj, Option.map_some'] at h1
  injection h1

theorem execute_queries_all_ok (e : DBengine) (db : DB) (qs : List String)
    (order : List Nat) (hcov : covers order qs.length)
    (h : ∀ q ∈ qs, ∃ v, queryRes db q = .ok v) :
    e.execute_queries db qs order =
      .ok (qs.map fun q => okRows (queryRes db q)) := by
  unfold DBengine.execute_queries
  have hall : ∀ p ∈ qs.enum, ∃ v,
      (fun p : Nat × String => (_execute_query db e.conn_args p).1) p = .ok v := by
    intro p hp
    exact h p.2 (enum_snd_mem qs p hp)
  rw [apply_func_all_ok e _ qs.enum order
    (by rw [List.enum_length]; exact hcov) hall]
  congr 1
  exact enum_map_snd_comp qs fun q => okRows (queryRes db q)

theorem execute_queries_w_backup_all_ok (e : DBengine) (db : DB)
    (qs : List (String × Option String)) (order : List Nat)
    (hcov : covers order qs.length)
    (h : ∀ p ∈ qs, ∃ v, wbackupRes db e.timeout p = .ok v) :
    e.execute_queries_w_backup db qs order =
      .ok (qs.map fun p => okRows (wbackupRes db e.timeout p)) := by
  unfold DBengine.execute_queries_w_backup
  have hall : ∀ p ∈ qs.enum, ∃ v,
      (fun p : Nat × (String × Option String) =>
        (_execute_query_w_backup db e.conn_args e.timeout p).1) p = .ok v := by
    intro p hp
    exact h p.2 (enum_snd_mem qs p hp)
  rw [apply_func_all_ok e _ qs.enum order
    (by rw [List.enum_length]; exact hcov) hall]
  congr 1
  exact enum_map_snd_comp qs fun p => okRows (wbackupRes db e.timeout p)

theorem execute_queries_error_iff (e : DBengine) (db : DB) (qs : List String)
    (order : List Nat) (hcov : covers order qs.length) :
    (∃ err, e.execute_queries db qs order = .error err) ↔
      ∃ q ∈ qs, ∃ er, queryRes db q = .error er := by
  unfold DBengine.execute_queries
  rw [apply_func_error_iff e _ qs.enum order
    (by rw [List.enum_length]; exact hcov)]
  exact enum_exists_snd qs fun q => ∃ er, queryRes db q = .error er

theorem execute_queries_w_backup_error_iff (e : DBengine) (db : DB)
    (qs : List (String × Option String)) (order : List Nat)
    (hcov : covers order qs.length) :
    (∃ err, e.execute_queries_w_backup db qs order = .error err) ↔
      ∃ p ∈ qs, ∃ er, wbackupRes db e.timeout p = .error er := by
  unfold DBengine.execute_queries_w_backup
  rw [apply_func_error_iff e _ qs.enum order
    (by rw [List.enum_length]; exact hcov)]
  exact enum_exists_snd qs fun p => ∃ er, wbackupRes db e.timeout p = .error er

theorem execute_queries_unique_error (e : DBengine) (db : DB)
    (qs : List String) (order : List Nat) (j : Nat) (err : DBError)
    (hcov : covers order qs.length) (hj : j < qs.length)
    (herr : queryRes db (qs.get ⟨j, hj⟩) = .error err)
    (hok : ∀ i (hi : i < qs.length), i ≠ j →
      ∃ v, queryRes db (qs.get ⟨i, hi⟩) = .ok v) :
    e.execute_queries db qs order = .error err := by
  unfold DBengine.execute_queries
  have hj2 : j < qs.enum.length := by
    rw [List.enum_length]
    exact hj
  apply apply_func_unique_error e _ qs.enum order j err
    (by rw [List.enum_length]; exact hcov) hj2
  · rw [enum_get_eq qs j hj hj2]
    exact herr
  · intro i hi2 hij
    have hi : i < qs.length := by
      rw [List.enum_length] at hi2
      exact hi2
    rw [enum_get_eq qs i hi hi2]
    exact hok i hi hij

theorem execute_queries_w_backup_unique_error (e : DBengine) (db : DB)
    (qs : List (String × Option String)) (order : List Nat) (j : Nat)
    (err : DBError) (hcov : covers order qs.length) (hj : j < qs.length)
    (herr : wbackupRes db e.timeout (qs.get ⟨j, hj⟩) = .error err)
    (hok : ∀ i (hi : i < qs.length), i ≠ j →
      ∃ v, wbackupRes db e.timeout (qs.get ⟨i, hi⟩) = .ok v) :
    e.execute_queries_w_backup db qs order = .error err := by
  unfold DBengine.execute_queries_w_backup
  have hj2 : j < qs.enum.length := by
    rw [List.enum_length]
    exact hj
  apply apply_func_unique_error e _ qs.enum order j err
    (by rw [List.enum_length]; exact hcov) hj2
  · rw [enum_get_eq qs j hj hj2]
    exact herr
  · intro i hi2 hij
    have hi : i < qs.length := by
      rw [List.enum_length] at hi2
      exact hi2
    rw [enum_get_eq qs i hi hi2]
    exact hok i hi hij

theorem pyFalsy_eq_false (b : Option String) (h : pyFalsy b = false) :
    ∃ bq, b = some bq ∧ bq ≠ "" := by
  cases b with
  | none => cases h
  | some s =>
    refine ⟨s, rfl, ?_⟩
    intro hs
    subst hs
    simp [pyFalsy] at h

theorem queryRes_ok (db : DB) (q : String) (rows : List Row)
    (h : db.run q false = .ok rows) : queryRes db q = .ok rows :=
  congrArg Prod.fst (execute_query_of_ok db "" 0 q rows h)

theorem queryRes_err (db : DB) (q : String) (e : DBError)
    (h : db.run q false = .err e) : queryRes db q = .error e :=
  congrArg Prod.fst (execute_query_of_err db "" 0 q e h)

theorem wbackupRes_cancel_falsy (db : DB) (T : Nat) (q : String)
    (b : Option String) (hcan : db.run q true = .err .queryCanceled)
    (hb : pyFalsy b = true) : wbackupRes db T (q, b) = .ok [] :=
  congrArg Prod.fst (wbackup_of_cancel_falsy db "" T 0 q b hcan hb)

theorem wbackupRes_cancel_fb_ok (db : DB) (T : Nat) (q bq : String)
    (rows : List Row) (hcan : db.run q true = .err .queryCanceled)
    (hbq : bq ≠ "") (hfb : db.run bq false = .ok rows) :
    wbackupRes db T (q, some bq) = .ok rows :=
  congrArg Prod.fst (wbackup_of_cancel_fb_ok db "" T 0 q bq rows hcan hbq hfb)

/- ### Claim theorems -/

/-- Claim C5: only a timeout-attributable cancellation triggers the
fallback; any other error during primary execution propagates as a hard
failure for the task and no fallback is attempted (the trace stays at one
connection and never reaches a second execute). -/
theorem C5_non_timeout_error_propagates (db : DB) (ca : String) (T i : Nat)
    (q : String) (b : Option String) (m : String)
    (herr : db.run q true = .err (.other m)) :
    (_execute_query_w_backup db ca T (i, (q, b))).1 = .error (.other m) ∧
    (_execute_query_w_backup db ca T (i, (q, b))).2 =
      [.connect, .setTimeout T, .exec q] ∧
    connects ((_execute_query_w_backup db ca T (i, (q, b))).2) = 1 := by
  rw [wbackup_of_other db ca T i q b m herr]
  exact ⟨rfl, rfl, rfl⟩

/-- Claim C5 witness: a non-timeout driver error on the primary statement
propagates even though a fallback was supplied. -/
theorem C5_witness :
    (_execute_query_w_backup dbFix "conn" 50 (3, ("bad", some "fb"))).1 =
      .error (.other "boom") ∧
    (_execute_query_w_backup dbFix "conn" 50 (3, ("bad", some "fb"))).2 =
      [.connect, .setTimeout 50, .exec "bad"] ∧
    connects ((_execute_query_w_backup dbFix "conn" 50 (3, ("bad", some "fb"))).2) = 1 :=
  C5_non_timeout_error_propagates dbFix "conn" 50 3 "bad" (some "fb") "boom" rfl

/-- Claim C7: after a timeout-cancellation the fallback statement runs on a
fresh connection with no timeout guard (exactly one setTimeout event in the
whole trace, none after the reconnect), and a failure of the fallback is
not caught: it propagates and never triggers a further fallback (the trace
ends at the second execute; there is no third connect). -/
theorem C7_fallback_unguarded_failure_propagates (db : DB) (ca : String)
    (T i : Nat) (q bq : String) (e2 : DBError)
    (hcan : db.run q true = .err .queryCanceled) (hbq : bq ≠ "")
    (hfb : db.run bq false = .err e2) :
    _execute_query_w_backup db ca T (i, (q, some bq)) =
      (.error e2, [.connect, .setTimeout T, .exec q, .close, .connect, .exec bq]) ∧
    setTimeouts ((_execute_query_w_backup db ca T (i, (q, some bq))).2) = 1 ∧
    connects ((_execute_query_w_backup db ca T (i, (q, some bq))).2) = 2 := by
  rw [wbackup_of_cancel_fb_err db ca T i q bq e2 hcan hbq hfb]
  exact ⟨rfl, rfl, rfl⟩

/-- Claim C7 witness: the fallback itself gets cancelled (it is a statement
the server cancels even unguarded) and this cancellation propagates as a
hard error instead of triggering another fallback. -/
theorem C7_witness :
    _execute_query_w_backup dbFix "conn" 50 (1, ("slow", some "fbcancel")) =
      (.error .queryCanceled,
        [.connect, .setTimeout 50, .exec "slow", .close, .connect, .exec "fbcancel"]) ∧
    setTimeouts ((_execute_query_w_backup dbFix "conn" 50 (1, ("slow", some "fbcancel"))).2) = 1 ∧
    connects ((_execute_query_w_backup dbFix "conn" 50 (1, ("slow", some "fbcancel"))).2) = 2 :=
  C7_fallback_unguarded_failure_propagates dbFix "conn" 50 1 "slow" "fbcancel"
    .queryCanceled rfl (by decide) rfl

/-- Claim C9: an empty-string fallback behaves exactly like no fallback:
the runner's result and trace coincide with the no-fallback run, and after
a timeout-cancellation the worker returns an empty result without opening
a second connection (the empty fallback is never executed). -/
theorem C9_empty_backup_like_none (db : DB) (ca : String) (T i : Nat)
    (q : String) :
    _execute_query_w_backup db ca T (i, (q, some "")) =
      _execute_query_w_backup db ca T (i, (q, none)) ∧
    (db.run q true = .err .queryCanceled →
      (_execute_query_w_backup db ca T (i, (q, some ""))).1 = .ok [] ∧
      connects ((_execute_query_w_backup db ca T (i, (q, some ""))).2) = 1) := by
  constructor
  · cases h : db.run q true with
    | ok rows =>
      rw [wbackup_of_ok db ca T i q (some "") rows h,
        wbackup_of_ok db ca T i q none rows h]
    | err e =>
      cases e with
      | queryCanceled =>
        rw [wbackup_of_cancel_falsy db ca T i q (some "") h rfl,
          wbackup_of_cancel_falsy db ca T i q none h rfl]
      | other m =>
        rw [wbackup_of_other db ca T i q (some "") m h,
          wbackup_of_other db ca T i q none m h]
  · intro hcan
    rw [wbackup_of_cancel_falsy db ca T i q (some "") hcan rfl]
    exact ⟨rfl, rfl⟩

/-- Claim C9 witness: a cancelled primary with an empty-string fallback
yields the empty result on a single connection. -/
theorem C9_witness :
    (_execute_query_w_backup dbFix "conn" 50 (0, ("slow", some ""))).1 = .ok [] ∧
    connects ((_execute_query_w_backup dbFix "conn" 50 (0, ("slow", some ""))).2) = 1 :=
  (C9_empty_backup_like_none dbFix "conn" 50 0 "slow").2 rfl

/-- Shape of every with-backup trace: it always starts with connect,
setTimeout, execute-primary, and no later event is a setTimeout. -/
theorem wbackup_trace (db : DB) (ca : String) (T j : Nat) (q : String)
    (b : Option String) :
    ∃ rest, (_execute_query_w_backup db ca T (j, (q, b))).2 =
      Event.connect :: Event.setTimeout T :: Event.exec q :: rest ∧
      setTimeouts rest = 0 := by
  cases h : db.run q true with
  | ok rows =>
    refine ⟨[], ?_, rfl⟩
    rw [wbackup_of_ok db ca T j q b rows h]
  | err e =>
    cases e with
    | queryCanceled =>
      cases hb : pyFalsy b with
      | true =>
        refine ⟨[], ?_, rfl⟩
        rw [wbackup_of_cancel_falsy db ca T j q b h hb]
      | false =>
        obtain ⟨bq, rfl, hbq⟩ := pyFalsy_eq_false b hb
        cases hfb : db.run bq false with
        | ok rows =>
          refine ⟨[.close, .connect, .exec bq, .close], ?_, rfl⟩
          rw [wbackup_of_cancel_fb_ok db ca T j q bq rows h hbq hfb]
        | err e2 =>
          refine ⟨[.close, .connect, .exec bq], ?_, rfl⟩
          rw [wbackup_of_cancel_fb_err db ca T j q bq e2 h hbq hfb]
    | other m =>
      refine ⟨[], ?_, rfl⟩
      rw [wbackup_of_other db ca T j q b m h]

/-- Claim C10: the plain batch worker `_execute_query` never issues
`SET statement_timeout` (no setTimeout event in its trace), while the
with-backup worker always issues it exactly once, immediately after
connecting and before executing the primary statement. -/
theorem C10_timeout_only_in_backup_path (db : DB) (ca : String) (T i j : Nat)
    (q : String) (qb : String × Option String) :
    setTimeouts ((_execute_query db ca (i, q)).2) = 0 ∧
    (∃ rest, (_execute_query_w_backup db ca T (j, qb)).2 =
      Event.connect :: Event.setTimeout T :: Event.exec qb.1 :: rest) ∧
    setTimeouts ((_execute_query_w_backup db ca T (j, qb)).2) = 1 := by
  obtain ⟨q', b⟩ := qb
  refine ⟨?_, ?_⟩
  · cases h : db.run q false with
    | ok rows => rw [execute_query_of_ok db ca i q rows h]; rfl
    | err e => rw [execute_query_of_err db ca i q e h]; rfl
  · obtain ⟨rest, htr, hst⟩ := wbackup_trace db ca T j q' b
    refine ⟨⟨rest, htr⟩, ?_⟩
    rw [htr]
    show setTimeouts rest + 1 = 1
    rw [hst]

/-- Claim C6 counterexample: on the timeout-with-no-fallback path the
worker returns its successful empty result while still holding the one
connection it opened (one connect event, zero close events), refuting the
claim that every exit path releases every opened connection. -/
theorem C6_counterexample :
    (_execute_query_w_backup dbFix "conn" 50 (0, ("slow", none))).1 = .ok [] ∧
    connects ((_execute_query_w_backup dbFix "conn" 50 (0, ("slow", none))).2) = 1 ∧
    closes ((_execute_query_w_backup dbFix "conn" 50 (0, ("slow", none))).2) = 0 :=
  ⟨rfl, rfl, rfl⟩

/-- Claim C6 amended: the with-backup worker closes as many connections as
it opens exactly when the run took the successful-fallback path (primary
cancelled, non-falsy backup supplied, backup succeeded); on the
primary-success path, the timeout-with-no-fallback path and every error
path it exits holding an unclosed connection. The plain worker closes its
connection exactly when the statement succeeds. -/
theorem C6_amended_connection_release (db : DB) (ca : String) (T i i2 : Nat)
    (q : String) (b : Option String) (q2 : String) :
    (closes ((_execute_query_w_backup db ca T (i, (q, b))).2) =
        connects ((_execute_query_w_backup db ca T (i, (q, b))).2) ↔
      db.run q true = .err .queryCanceled ∧ pyFalsy b = false ∧
        ∃ rows, db.run (b.getD "") false = .ok rows) ∧
    (closes ((_execute_query db ca (i2, q2)).2) =
        connects ((_execute_query db ca (i2, q2)).2) ↔
      ∃ rows, db.run q2 false = .ok rows) := by
  constructor
  · cases h : db.run q true with
    | ok rows =>
      rw [wbackup_of_ok db ca T i q b rows h]
      simp [closes, connects, h]
    | err e =>
      cases e with
      | queryCanceled =>
        cases hb : pyFalsy b with
        | true =>
          rw [wbackup_of_cancel_falsy db ca T i q b h hb]
          simp [closes, connects, h, hb]
        | false =>
          obtain ⟨bq, rfl, hbq⟩ := pyFalsy_eq_false b hb
          cases hfb : db.run bq false with
          | ok rows =>
            rw [wbackup_of_cancel_fb_ok db ca T i q bq rows h hbq hfb]
            simp [closes, connects, h, hb, hfb]
          | err e2 =>
            rw [wbackup_of_cancel_fb_err db ca T i q bq e2 h hbq hfb]
            simp [closes, connects, h, hb, hfb]
      | other m =>
        rw [wbackup_of_other db ca T i q b m h]
        simp [closes, connects, h]
  · cases h : db.run q2 false with
    | ok rows =>
      rw [execute_query_of_ok db ca i2 q2 rows h]
      simp [closes, connects, h]
    | err e =>
      rw [execute_query_of_err db ca i2 q2 e h]
      simp [closes, connects, h]

/-- Claim C1: a primary statement cancelled by the configured timeout with
no (falsy) fallback yields a successful empty result for its task, and —
provided every other task completes without a raised error — the batch
call is not aborted: it returns a full array with the empty result at that
statement's index. -/
theorem C1_timeout_no_fallback_empty (e : DBengine) (db : DB)
    (qs : List (String × Option String)) (order : List Nat) (j : Nat)
    (hcov : covers order qs.length) (hj : j < qs.length)
    (hcan : db.run (qs.get ⟨j, hj⟩).1 true = .err .queryCanceled)
    (hnb : pyFalsy (qs.get ⟨j, hj⟩).2 = true) :
    wbackupRes db e.timeout (qs.get ⟨j, hj⟩) = .ok [] ∧
    ((∀ i (hi : i < qs.length), i ≠ j →
        ∃ v, wbackupRes db e.timeout (qs.get ⟨i, hi⟩) = .ok v) →
      ∃ rs, e.execute_queries_w_backup db qs order = .ok rs ∧
        rs.length = qs.length ∧ rs.get? j = some []) := by
  have h1 : wbackupRes db e.timeout (qs.get ⟨j, hj⟩) = .ok [] :=
    wbackupRes_cancel_falsy db e.timeout (qs.get ⟨j, hj⟩).1 (qs.get ⟨j, hj⟩).2
      hcan hnb
  refine ⟨h1, ?_⟩
  intro hothers
  have hall : ∀ p ∈ qs, ∃ v, wbackupRes db e.timeout p = .ok v := by
    intro p hp
    obtain ⟨⟨k, hk⟩, rfl⟩ := List.mem_iff_get.mp hp
    by_cases hkj : k = j
    · subst hkj
      exact ⟨[], h1⟩
    · exact hothers k hk hkj
  rw [execute_queries_w_backup_all_ok e db qs order hcov hall]
  refine ⟨qs.map fun p => okRows (wbackupRes db e.timeout p), rfl, ?_, ?_⟩
  · rw [List.length_map]
  · rw [List.get?_map, List.get?_eq_get hj, Option.map_some', h1]
    rfl

/-- Claim C1 witness: a batch of two statements where the second is
cancelled and has no fallback returns a full two-element array with an
empty result at index 1 (parallel path, reversed completion order). -/
theorem C1_witness :
    ∃ rs, engPar.execute_queries_w_backup dbFix
        [("fast", none), ("slow", none)] [1, 0] = .ok rs ∧
      rs.length = 2 ∧ rs.get? 1 = some [] :=
  (C1_timeout_no_fallback_empty engPar dbFix [("fast", none), ("slow", none)]
      [1, 0] 1 (by decide) (by decide) rfl rfl).2
    (by
      intro i hi hij
      simp only [List.length_cons, List.length_nil] at hi
      have h0 : i = 0 := by omega
      subst h0
      exact ⟨[["r1"]], rfl⟩)

/-- Claim C2: a primary statement cancelled by the configured timeout whose
fallback is a non-empty statement runs the fallback exactly once on a
fresh unguarded connection (its full trace is explicit), and — provided
every other task completes without a raised error — the batch result at
that statement's index is the fallback's full fetched result set. -/
theorem C2_timeout_with_fallback (e : DBengine) (db : DB)
    (qs : List (String × Option String)) (order : List Nat) (j : Nat)
    (q bq : String) (rows : List Row)
    (hcov : covers order qs.length) (hj : j < qs.length)
    (hq : qs.get ⟨j, hj⟩ = (q, some bq))
    (hcan : db.run q true = .err .queryCanceled)
    (hbq : bq ≠ "")
    (hfb : db.run bq false = .ok rows) :
    _execute_query_w_backup db e.conn_args e.timeout (j, (q, some bq)) =
      (.ok rows,
        [.connect, .setTimeout e.timeout, .exec q, .close, .connect, .exec bq,
          .close]) ∧
    ((∀ i (hi : i < qs.length), i ≠ j →
        ∃ v, wbackupRes db e.timeout (qs.get ⟨i, hi⟩) = .ok v) →
      ∃ rs, e.execute_queries_w_backup db qs order = .ok rs ∧
        rs.get? j = some rows) := by
  have h1 : wbackupRes db e.timeout (qs.get ⟨j, hj⟩) = .ok rows := by
    rw [hq]
    exact wbackupRes_cancel_fb_ok db e.timeout q bq rows hcan hbq hfb
  constructor
  · exact wbackup_of_cancel_fb_ok db e.conn_args e.timeout j q bq rows hcan hbq hfb
  · intro hothers
    have hall : ∀ p ∈ qs, ∃ v, wbackupRes db e.timeout p = .ok v := by
      intro p hp
      obtain ⟨⟨k, hk⟩, rfl⟩ := List.mem_iff_get.mp hp
      by_cases hkj : k = j
      · subst hkj
        exact ⟨rows, h1⟩
      · exact hothers k hk hkj
    rw [execute_queries_w_backup_all_ok e db qs order hcov hall]
    refine ⟨qs.map fun p => okRows (wbackupRes db e.timeout p), rfl, ?_⟩
    rw [List.get?_map, List.get?_eq_get hj, Option.map_some', h1]
    rfl

/-- Claim C2 witness: the cancelled statement with fallback contributes the
fallback's rows at its index (parallel path, reversed completion order). -/
theorem C2_witness :
    ∃ rs, engPar.execute_queries_w_backup dbFix
        [("fast", none), ("slow", some "fb")] [1, 0] = .ok rs ∧
      rs.get? 1 = some [["r1"]] :=
  (C2_timeout_with_fallback engPar dbFix [("fast", none), ("slow", some "fb")]
      [1, 0] 1 "slow" "fb" [["r1"]] (by decide) (by decide) rfl rfl (by decide)
      rfl).2
    (by
      intro i hi hij
      simp only [List.length_cons, List.length_nil] at hi
      have h0 : i = 0 := by omega
      subst h0
      exact ⟨[["r1"]], rfl⟩)

/-- Claim C3: for a batch of N statements in which every task completes
without a raised error, both batch entry points return the full array in
which element i is the result of statement i, for every covering
completion schedule (so independently of worker completion order). -/
theorem C3_batch_ordered_results :
    (∀ (e : DBengine) (db : DB) (qs : List String) (order : List Nat),
      covers order qs.length →
      (∀ q, q ∈ qs → ∃ rows, db.run q false = .ok rows) →
      e.execute_queries db qs order =
        .ok (qs.map fun q => okRows (queryRes db q))) ∧
    (∀ (e : DBengine) (db : DB) (qs : List (String × Option String))
        (order : List Nat),
      covers order qs.length →
      (∀ p, p ∈ qs → ∃ v, wbackupRes db e.timeout p = .ok v) →
      e.execute_queries_w_backup db qs order =
        .ok (qs.map fun p => okRows (wbackupRes db e.timeout p))) := by
  constructor
  · intro e db qs order hcov hok
    apply execute_queries_all_ok e db qs order hcov
    intro q hq
    obtain ⟨rows, hrows⟩ := hok q hq
    exact ⟨rows, queryRes_ok db q rows hrows⟩
  · intro e db qs order hcov hok
    exact execute_queries_w_backup_all_ok e db qs order hcov hok

/-- Claim C3 witness: two plain statements dispatched on the parallel path
with reversed completion order still produce the results in submission
order. -/
theorem C3_witness :
    engPar.execute_queries dbFix ["a", "b"] [1, 0] =
      .ok [[["r1"]], [["r1"]]] :=
  (C3_batch_ordered_results.1 engPar dbFix ["a", "b"] [1, 0] (by decide)
    (by
      intro q hq
      simp only [List.mem_cons, List.not_mem_nil, or_false] at hq
      rcases hq with rfl | rfl
      · exact ⟨[["r1"]], rfl⟩
      · exact ⟨[["r1"]], rfl⟩)).trans rfl

/-- Claim C4 counterexample: on a batch with two failing statements the
sequential path (pool size 1) raises the submission-first statement's
error while the parallel path (pool size 20), under a completion schedule
in which the second statement finishes first, raises the other
statement's error — the two paths do not have identical failure behavior,
refuting the claim that the pool size is never a semantics switch. -/
theorem C4_counterexample :
    engSeq.execute_queries dbFix2 ["bad", "bad2"] [1, 0] =
      .error (.other "boom") ∧
    engPar.execute_queries dbFix2 ["bad", "bad2"] [1, 0] =
      .error (.other "boom2") :=
  ⟨rfl, rfl⟩

/-- Claim C4 amended: the pool size never affects the result array — on
failure-free batches the sequential (pool size at most 1) and parallel
(pool size above 1) paths of both batch entry points return identical
arrays, and whether a batch call fails at all is also identical on both
paths; but when more than one statement fails, the delivered error may
differ: the sequential path raises the submission-first error while the
parallel path raises the first error in completion order. -/
theorem C4_amended_pool_size_results (e1 e2 : DBengine) (db : DB)
    (qs : List String) (qbs : List (String × Option String))
    (o1 o2 : List Nat)
    (hconn : e1.conn_args = e2.conn_args) (htime : e1.timeout = e2.timeout)
    (hp1 : e1.pool_size ≤ 1) (hp2 : 1 < e2.pool_size)
    (h1 : covers o1 qs.length) (h2 : covers o2 qs.length)
    (h1b : covers o1 qbs.length) (h2b : covers o2 qbs.length) :
    ((∀ q ∈ qs, ∃ v, queryRes db q = .ok v) →
      e1.execute_queries db qs o1 = e2.execute_queries db qs o2) ∧
    ((∃ err, e1.execute_queries db qs o1 = .error err) ↔
      (∃ err, e2.execute_queries db qs o2 = .error err)) ∧
    ((∀ p ∈ qbs, ∃ v, wbackupRes db e1.timeout p = .ok v) →
      e1.execute_queries_w_backup db qbs o1 =
        e2.execute_queries_w_backup db qbs o2) ∧
    ((∃ err, e1.execute_queries_w_backup db qbs o1 = .error err) ↔
      (∃ err, e2.execute_queries_w_backup db qbs o2 = .error err)) := by
  refine ⟨?_, ?_, ?_, ?_⟩
  · intro hok
    rw [execute_queries_all_ok e1 db qs o1 h1 hok,
      execute_queries_all_ok e2 db qs o2 h2 hok]
  · exact (execute_queries_error_iff e1 db qs o1 h1).trans
      (execute_queries_error_iff e2 db qs o2 h2).symm
  · intro hok
    rw [execute_queries_w_backup_all_ok e1 db qbs o1 h1b hok,
      execute_queries_w_backup_all_ok e2 db qbs o2 h2b (htime ▸ hok), htime]
  · have h3 := execute_queries_w_backup_error_iff e1 db qbs o1 h1b
    have h4 := execute_queries_w_backup_error_iff e2 db qbs o2 h2b
    rw [htime] at h3
    exact h3.trans h4.symm

/-- Claim C4 amended witness: on a failure-free batch the sequential and
parallel engines return the identical result array. -/
theorem C4_amended_witness :
    engSeq.execute_queries dbFix ["a", "b"] [0, 1] =
      engPar.execute_queries dbFix ["a", "b"] [1, 0] :=
  (C4_amended_pool_size_results engSeq engPar dbFix ["a", "b"] [] [0, 1]
      [1, 0] rfl rfl (by decide) (by decide) (by decide) (by decide)
      (by decide) (by decide)).1
    (by
      intro q hq
      simp only [List.mem_cons, List.not_mem_nil, or_false] at hq
      rcases hq with rfl | rfl
      · exact ⟨[["r1"]], rfl⟩
      · exact ⟨[["r1"]], rfl⟩)

/-- Claim C8 counterexample: the caller-visible batch error is the raw
driver error of the failing statement; the same statement failing at
batch index 1 and at batch index 0 delivers the very same error value, so
the error does not identify the failing statement's batch index. -/
theorem C8_counterexample :
    engPar.execute_queries dbFix ["a", "bad"] [0, 1] =
      .error (.other "boom") ∧
    engPar.execute_queries dbFix ["bad", "a"] [0, 1] =
      .error (.other "boom") :=
  ⟨rfl, rfl⟩

/-- Claim C8 amended: when a task suffers a non-recoverable failure, the
whole batch call fails — a raised driver error, never a partially-filled
result array — on both the sequential and the parallel path; and when the
failing task is the only failing one, the error delivered to the caller
is exactly that statement's underlying driver error, for every covering
completion schedule. With several failing tasks the parallel path's
delivered error depends on completion order. The failing statement's
batch index is not identified in the error. -/
theorem C8_amended_batch_failure :
    (∀ (e : DBengine) (db : DB) (qs : List String) (order : List Nat)
        (j : Nat) (err : DBError) (hcov : covers order qs.length)
        (hj : j < qs.length),
      queryRes db (qs.get ⟨j, hj⟩) = .error err →
      (∃ err2, e.execute_queries db qs order = .error err2) ∧
      ((∀ i (hi : i < qs.length), i ≠ j →
          ∃ v, queryRes db (qs.get ⟨i, hi⟩) = .ok v) →
        e.execute_queries db qs order = .error err)) ∧
    (∀ (e : DBengine) (db : DB) (qs : List (String × Option String))
        (order : List Nat) (j : Nat) (err : DBError)
        (hcov : covers order qs.length) (hj : j < qs.length),
      wbackupRes db e.timeout (qs.get ⟨j, hj⟩) = .error err →
      (∃ err2, e.execute_queries_w_backup db qs order = .error err2) ∧
      ((∀ i (hi : i < qs.length), i ≠ j →
          ∃ v, wbackupRes db e.timeout (qs.get ⟨i, hi⟩) = .ok v) →
        e.execute_queries_w_backup db qs order = .error err)) := by
  constructor
  · intro e db qs order j err hcov hj hfail
    constructor
    · exact (execute_queries_error_iff e db qs order hcov).mpr
        ⟨qs.get ⟨j, hj⟩, List.get_mem qs j hj, err, hfail⟩
    · intro hok
      exact execute_queries_unique_error e db qs order j err hcov hj hfail hok
  · intro e db qs order j err hcov hj hfail
    constructor
    · exact (execute_queries_w_backup_error_iff e db qs order hcov).mpr
        ⟨qs.get ⟨j, hj⟩, List.get_mem qs j hj, err, hfail⟩
    · intro hok
      exact execute_queries_w_backup_unique_error e db qs order j err hcov hj
        hfail hok

/-- Claim C8 witness: a batch whose second statement is the only failing
one aborts (a raised error, not a partial array) with exactly that
statement's underlying driver error (parallel path, reversed completion
order). -/
theorem C8_witness :
    (∃ err2, engPar.execute_queries dbFix ["a", "bad"] [1, 0] = .error err2) ∧
    engPar.execute_queries dbFix ["a", "bad"] [1, 0] =
      .error (.other "boom") := by
  have h := C8_amended_batch_failure.1 engPar dbFix ["a", "bad"] [1, 0] 1
    (.other "boom") (by decide) (by decide) rfl
  refine ⟨h.1, h.2 ?_⟩
  intro i hi hij
  simp only [List.length_cons, List.length_nil] at hi
  have h0 : i = 0 := by omega
  subst h0
  exact ⟨[["r1"]], rfl⟩

end DBEngineSpec
